import Mathlib

set_option autoImplicit false
set_option maxHeartbeats 1000000
set_option maxRecDepth 8000

/-! Verification of the lab-report extraction and ledger-reconciliation engine
    of `src/main.py` (telegram-bot-analyzes).  Python functions are shallowly
    embedded as executable Lean functions; the regular expressions of the
    parser are embedded through a small backtracking engine that mirrors the
    semantics of Python `re` (leftmost match, ordered alternation, greedy /
    lazy quantifiers, numbered capture groups). -/

namespace LabBot

/-! ## Character model

Python `str` characters, restricted to the alphabets the program manipulates
(ASCII plus the Cyrillic block and the two micro signs).  Ranges are compared
through `Char.toNat` to keep the arithmetic transparent. -/

/-- Python whitespace (`str.strip` / regex `\s`): space, TAB, LF, VT, FF, CR,
    NEL and NBSP. -/
def isPySp (c : Char) : Bool :=
  c.toNat == 32 || c.toNat == 9 || c.toNat == 10 || c.toNat == 13 ||
  c.toNat == 11 || c.toNat == 12 || c.toNat == 133 || c.toNat == 160

/-- regex `\d` (ASCII digits `0`-`9`). -/
def isDigitCh (c : Char) : Bool := 48 ≤ c.toNat && c.toNat ≤ 57

/-- `A`-`Z`. -/
def isLatinUp (c : Char) : Bool := 65 ≤ c.toNat && c.toNat ≤ 90

/-- `a`-`z`. -/
def isLatinLo (c : Char) : Bool := 97 ≤ c.toNat && c.toNat ≤ 122

/-- Cyrillic capitals `А`-`Я` (U+0410..U+042F) together with `Ё` (U+0401). -/
def isCyrUp (c : Char) : Bool := (1040 ≤ c.toNat && c.toNat ≤ 1071) || c.toNat == 1025

/-- Cyrillic lowercase `а`-`я` (U+0430..U+044F) together with `ё` (U+0451). -/
def isCyrLo (c : Char) : Bool := (1072 ≤ c.toNat && c.toNat ≤ 1103) || c.toNat == 1105

def isCyr (c : Char) : Bool := isCyrUp c || isCyrLo c

def isLatin (c : Char) : Bool := isLatinUp c || isLatinLo c

/-- Python `str.lower` for the Latin and Cyrillic alphabets: `A-Z` and `А-Я`
    shift by 32, `Ё` maps to `ё`, everything else is fixed. -/
def pyLower (c : Char) : Char :=
  if 65 ≤ c.toNat && c.toNat ≤ 90 then Char.ofNat (c.toNat + 32)
  else if 1040 ≤ c.toNat && c.toNat ≤ 1071 then Char.ofNat (c.toNat + 32)
  else if c.toNat == 1025 then Char.ofNat 1105
  else c

/-! ## String helpers (Python semantics) -/

/-- `str.strip()` on a character list: drop Python whitespace at both ends. -/
def pyStripList (l : List Char) : List Char :=
  ((l.dropWhile isPySp).reverse.dropWhile isPySp).reverse

/-- Python `s.strip()`. -/
def pyStrip (s : String) : String := String.mk (pyStripList s.data)

/-- Python `s.lower()`. -/
def pyLowerStr (s : String) : String := String.mk (s.data.map pyLower)

/-- Python `s.replace(" ", "")`: the pattern is a single character, so the
    replacement is a filter. -/
def despace (s : String) : String := String.mk (s.data.filter (fun c => c != ' '))

/-- Python `s.replace(",", ".")`: single-character pattern and replacement,
    hence a character map. -/
def commaToDot (s : String) : String :=
  String.mk (s.data.map (fun c => if c == ',' then '.' else c))

/-- Reference post-processing applied by the matcher (main.py line 323):
    `ref.strip().replace(" ", "")`. -/
def normalizeRef (s : String) : String := despace (pyStrip s)

def interNL : List (List Char) → List Char
  | [] => []
  | [x] => x
  | x :: y :: rest => x ++ '\n' :: interNL (y :: rest)

/-- `"\n".join(parts)`. -/
def joinNL (parts : List String) : String := String.mk (interNL (parts.map String.data))

def splitNL : List Char → List (List Char)
  | [] => [[]]
  | c :: rest =>
    match splitNL rest with
    | [] => [[]]
    | h :: t => if c == '\n' then [] :: h :: t else (c :: h) :: t

/-- `joined.splitlines()` with `\n` as the only line terminator (the joiner
    the program itself uses); carriage returns at line ends are later removed
    by the per-line `strip()`, and the empty pieces Python's `splitlines`
    drops are removed by the emptiness filter that follows. -/
def pySplitLines (s : String) : List String := (splitNL s.data).map String.mk

/-- main.py line 278: `[ln.strip() for ln in joined.splitlines() if ln.strip()]`. -/
def normalizedLines (joined : String) : List String :=
  ((pySplitLines joined).map pyStrip).filter (fun ln => ln != "")

/-- Python truthiness of an optional string (`if not fio`). -/
def truthyOpt (o : Option String) : Bool :=
  match o with
  | none => false
  | some s => s != ""

/-! ## A backtracking regex engine

Mirrors the fragment of Python `re` the program uses: character classes,
concatenation, ordered alternation, numbered capture groups and counted
greedy / lazy repetition.  The matcher is written in continuation-passing
style, so alternatives are explored exactly in Python's backtracking order
and the first overall success wins.  `fuel` only bounds the depth of
quantifier unfolding and is always instantiated large enough
(each iteration of a repetition consumes at least one character here,
since every repetition body in the embedded patterns is a character class). -/

inductive RE where
  | eps : RE
  | cls : (Char → Bool) → RE
  | seq : RE → RE → RE
  | alt : RE → RE → RE
  | grp : Nat → RE → RE
  | rep : Nat → Option Nat → Bool → RE → RE

/-- Captures: `(group index, start, end)`, most recent first. -/
abbrev Caps := List (Nat × Nat × Nat)

def oelse (a : Option (Nat × Caps)) (b : Option (Nat × Caps)) : Option (Nat × Caps) :=
  match a with
  | some r => some r
  | none => b

def decrOpt : Option Nat → Option Nat
  | none => none
  | some m => some (m - 1)

def mrun : Nat → RE → List Char → Nat → Caps → (Nat → Caps → Option (Nat × Caps)) →
    Option (Nat × Caps)
  | 0, _, _, _, _, _ => none
  | fuel + 1, re, s, i, caps, k =>
    match re with
    | .eps => k i caps
    | .cls p =>
      match s.get? i with
      | some c => if p c then k (i + 1) caps else none
      | none => none
    | .seq a b => mrun fuel a s i caps (fun j caps2 => mrun fuel b s j caps2 k)
    | .alt a b => oelse (mrun fuel a s i caps k) (mrun fuel b s i caps k)
    | .grp n r => mrun fuel r s i caps (fun j caps2 => k j ((n, i, j) :: caps2))
    | .rep mn mx g r =>
      match mn with
      | m + 1 =>
        mrun fuel r s i caps (fun j caps2 =>
          mrun fuel (.rep m (decrOpt mx) g r) s j caps2 k)
      | 0 =>
        match mx with
        | some 0 => k i caps
        | _ =>
          let more := mrun fuel r s i caps (fun j caps2 =>
            if j == i then none else mrun fuel (.rep 0 (decrOpt mx) g r) s j caps2 k)
          if g then oelse more (k i caps) else oelse (k i caps) more

/-- Anchored match attempt at position `i` (Python `pattern.match` is this at
    `i = 0`).  Returns the end position and the captures. -/
def rmatchAt (re : RE) (s : List Char) (i : Nat) : Option (Nat × Caps) :=
  mrun (8 * s.length + 64) re s i [] (fun j caps => some (j, caps))

/-- Python `re.search`: first position whose anchored attempt succeeds. -/
def researchAux : Nat → RE → List Char → Nat → Option (Nat × Nat × Caps)
  | 0, _, _, _ => none
  | f + 1, re, s, i =>
    match rmatchAt re s i with
    | some (j, caps) => some (i, j, caps)
    | none => if i < s.length then researchAux f re s (i + 1) else none

def research (re : RE) (s : String) : Option (Nat × Nat × Caps) :=
  researchAux (s.data.length + 1) re s.data 0

/-- Python `re.findall`: non-overlapping matches scanning left to right. -/
def rfindallAux : Nat → RE → List Char → Nat → List (Nat × Nat × Caps)
  | 0, _, _, _ => []
  | f + 1, re, s, i =>
    if i > s.length then []
    else
      match rmatchAt re s i with
      | some (j, caps) => (i, j, caps) :: rfindallAux f re s (if i < j then j else i + 1)
      | none => if i < s.length then rfindallAux f re s (i + 1) else []

def rfindall (re : RE) (s : String) : List (Nat × Nat × Caps) :=
  rfindallAux (s.data.length + 1) re s.data 0

/-- Extract a capture group as a string (`m.group n`); `none` when the group
    did not participate in the match. -/
def capStr (s : List Char) (caps : Caps) (n : Nat) : Option String :=
  (caps.find? (fun e => e.1 == n)).map
    (fun e => String.mk ((s.drop e.2.1).take (e.2.2 - e.2.1)))

/-! Pattern constructors. -/

def chOf (c : Char) : RE := .cls (fun x => x == c)

/-- A literal character under `re.IGNORECASE`. -/
def chI (c : Char) : RE := .cls (fun x => pyLower x == pyLower c)

def litStr (t : String) : RE := t.data.foldr (fun c r => .seq (chOf c) r) .eps

def litStrI (t : String) : RE := t.data.foldr (fun c r => .seq (chI c) r) .eps

def rplus (r : RE) : RE := .rep 1 none true r

def rplusLazy (r : RE) : RE := .rep 1 none false r

def rstar (r : RE) : RE := .rep 0 none true r

def rstarLazy (r : RE) : RE := .rep 0 none false r

def ropt (r : RE) : RE := .rep 0 (some 1) true r

def rseq (l : List RE) : RE := l.foldr .seq .eps

/-! ## The patterns of `parse_pdf` (main.py lines 283-332)

Each definition mirrors one regular expression of the source; `re.IGNORECASE`
is reflected by closing character classes under case and by `chI` / `litStrI`
for literals. -/

/-- `[:\s]`. -/
def isColonSp (c : Char) : Bool := c == ':' || isPySp c

/-- Class of group 1 of the primary analyte pattern:
    `[А-ЯЁа-яA-Za-z0-9\s\-\(\)\/%µμ]` (already closed under case). -/
def isNameCh (c : Char) : Bool :=
  isCyr c || isLatin c || isDigitCh c || isPySp c ||
  c == '-' || c == '(' || c == ')' || c == '/' || c == '%' || c == 'µ' || c == 'μ'

def isSignCh (c : Char) : Bool := c == '<' || c == '>'

def isSepDot (c : Char) : Bool := c == '.' || c == ','

/-- `[\d.,<>]`. -/
def isRefCh (c : Char) : Bool :=
  isDigitCh c || c == '.' || c == ',' || c == '<' || c == '>'

/-- `[^\d\n]`. -/
def isNotDigitNL (c : Char) : Bool := !(isDigitCh c) && c != '\n'

def isNotNL (c : Char) : Bool := c != '\n'

/-- `\w` (restricted to the alphabets in use); the source class
    `[\wЁёА-Яа-я]` adds nothing beyond it. -/
def isWordCh (c : Char) : Bool := isLatin c || isDigitCh c || c == '_' || isCyr c

/-- `[.\x2d\x2f]` (date separators). -/
def isDateSep (c : Char) : Bool := c == '.' || c == '-' || c == '/'

/-- `[А-ЯЁа-яA-Za-z\-\s]` (fallback name class). -/
def isFbNameCh (c : Char) : Bool := isCyr c || isLatin c || c == '-' || isPySp c

/-- Reference alternation of the primary pattern:
    `[\d.,<>]+–[\d.,<>]+|<\d+|>?\d+|отрицательно|не обнаружено`. -/
def refAltRE : RE :=
  .alt (rseq [rplus (.cls isRefCh), chOf '–', rplus (.cls isRefCh)])
    (.alt (.seq (chOf '<') (rplus (.cls isDigitCh)))
      (.alt (.seq (ropt (chOf '>')) (rplus (.cls isDigitCh)))
        (.alt (litStrI "отрицательно") (litStrI "не обнаружено"))))

/-- Primary analyte pattern (main.py lines 312-315):
    `^([А-ЯЁа-яA-Za-z0-9\s\-\(\)\/%µμ]+?)\s+([<>]?\d+[.,]?\d*)\s*(?:[^\d\n]{0,8})\s*(ref)?`
    with `re.IGNORECASE`. -/
def primaryRE : RE := rseq [
  .grp 1 (rplusLazy (.cls isNameCh)),
  rplus (.cls isPySp),
  .grp 2 (rseq [ropt (.cls isSignCh), rplus (.cls isDigitCh),
                ropt (.cls isSepDot), rstar (.cls isDigitCh)]),
  rstar (.cls isPySp),
  .rep 0 (some 8) true (.cls isNotDigitNL),
  rstar (.cls isPySp),
  ropt (.grp 3 refAltRE)]

/-- `Фамилия[:\s]*([А-ЯЁ][а-яё\-]+)` with `re.IGNORECASE` (classes closed
    under case). -/
def famRE : RE := rseq [
  litStrI "Фамилия",
  rstar (.cls isColonSp),
  .grp 1 (.seq (.cls isCyr) (rplus (.cls (fun c => isCyr c || c == '-'))))]

/-- `Фамилия[:\s]*{re.escape(surname)}[^\n]*\n.*?([\wЁёА-Яа-я]+\s+[\wЁёА-Яа-я]+)`
    with `re.IGNORECASE`. -/
def fam2RE (surname : String) : RE := rseq [
  litStrI "Фамилия",
  rstar (.cls isColonSp),
  litStrI surname,
  rstar (.cls isNotNL),
  chOf '\n',
  rstarLazy (.cls isNotNL),
  .grp 1 (rseq [rplus (.cls isWordCh), rplus (.cls isPySp), rplus (.cls isWordCh)])]

/-- `ФИО[:\s]+([\wЁёА-Яа-я]+\s+[\wЁёА-Яа-я]+\s+[\wЁёА-Яа-я]+)` (no flags). -/
def fioRE : RE := rseq [
  litStr "ФИО",
  rplus (.cls isColonSp),
  .grp 1 (rseq [rplus (.cls isWordCh), rplus (.cls isPySp), rplus (.cls isWordCh),
                rplus (.cls isPySp), rplus (.cls isWordCh)])]

/-- `[А-ЯЁ][а-яё]+` (no flags; case-sensitive). -/
def capTokRE : RE := .seq (.cls isCyrUp) (rplus (.cls isCyrLo))

/-- `Дата взятия образца[:\s]*([0-3]?\d[.\x2d\x2f][01]?\d[.\x2d\x2f]\d{4})` (no flags). -/
def date1RE : RE := rseq [
  litStr "Дата взятия образца",
  rstar (.cls isColonSp),
  .grp 1 (rseq [ropt (.cls (fun c => 48 ≤ c.toNat && c.toNat ≤ 51)), .cls isDigitCh,
                .cls isDateSep,
                ropt (.cls (fun c => c == '0' || c == '1')), .cls isDigitCh,
                .cls isDateSep,
                .rep 4 (some 4) true (.cls isDigitCh)])]

/-- `(\d{2}[.\x2d\x2f]\d{2}[.\x2d\x2f]\d{4})` (no flags). -/
def date2RE : RE :=
  .grp 1 (rseq [.rep 2 (some 2) true (.cls isDigitCh), .cls isDateSep,
                .rep 2 (some 2) true (.cls isDigitCh), .cls isDateSep,
                .rep 4 (some 4) true (.cls isDigitCh)])

/-- Fallback token pattern (main.py line 328):
    `([А-ЯЁа-яA-Za-z\-\s]{3,}?)[:\s]{1,3}([0-9]+(?:[.,][0-9]+)?)\s*([^\d\n]*)`. -/
def fallbackRE : RE := rseq [
  .grp 1 (.rep 3 none false (.cls isFbNameCh)),
  .rep 1 (some 3) true (.cls isColonSp),
  .grp 2 (.seq (rplus (.cls isDigitCh)) (ropt (.seq (.cls isSepDot) (rplus (.cls isDigitCh))))),
  rstar (.cls isPySp),
  .grp 3 (rstar (.cls isNotDigitNL))]

/-! ## Python dict model (insertion-ordered, overwrite in place) -/

def dinsert {α : Type} (d : List (String × α)) (key : String) (v : α) :
    List (String × α) :=
  if d.any (fun p => p.1 == key) then d.map (fun p => if p.1 == key then (p.1, v) else p)
  else d ++ [(key, v)]

def dlookup {α : Type} (d : List (String × α)) (key : String) : Option α :=
  (d.find? (fun p => p.1 == key)).map (fun p => p.2)

/-! ## `parse_pdf` (main.py lines 260-334), over the extracted page texts -/

/-- One analyte record: `{"value": ..., "ref": ...}`. -/
structure VR where
  value : String
  ref : String
deriving DecidableEq, Repr

def group1Of (s : String) (r : Option (Nat × Nat × Caps)) : Option String :=
  match r with
  | none => none
  | some m => capStr s.data m.2.2 1

/-- Capture triple of an anchored primary-pattern match of one line. -/
def pmatchGroups (ln : String) : Option (String × String × Option String) :=
  match rmatchAt primaryRE ln.data 0 with
  | none => none
  | some m =>
    match capStr ln.data m.2 1, capStr ln.data m.2 2 with
    | some g1, some g2 => some (g1, g2, capStr ln.data m.2 3)
    | _, _ => none

/-- Body of the primary extraction loop (main.py lines 317-324). -/
def primaryStep (d : List (String × VR)) (ln : String) : List (String × VR) :=
  match pmatchGroups ln with
  | none => d
  | some g =>
    dinsert d (pyStrip g.1) ⟨pyStrip (commaToDot g.2.1), normalizeRef (g.2.2.getD "")⟩

def primaryPass (lines : List String) : List (String × VR) :=
  lines.foldl primaryStep []

/-- `re.findall(fallback, joined_text)` as group triples. -/
def fallbackTokens (jt : String) : List (String × String × String) :=
  (rfindall fallbackRE jt).map (fun m =>
    ((capStr jt.data m.2.2 1).getD "", (capStr jt.data m.2.2 2).getD "",
     (capStr jt.data m.2.2 3).getD ""))

/-- Fallback extraction loop (main.py lines 328-332). -/
def fallbackPass (jt : String) : List (String × VR) :=
  (fallbackTokens jt).foldl (fun d t => dinsert d (pyStrip t.1) ⟨commaToDot t.2.1, ""⟩) []

/-- Analyte cascade: the primary strategy over all lines; the fallback runs
    only when the primary produced zero records for the whole document
    (main.py lines 317-332). -/
def analytesOf (lines : List String) (jt : String) : List (String × VR) :=
  let p := primaryPass lines
  if p.isEmpty then fallbackPass jt else p

/-- Strategy 3 for the name: first of the first 12 lines containing at least
    two capitalized Cyrillic tokens (main.py lines 296-300). -/
def firstNameLine : List String → Option String
  | [] => none
  | ln :: rest =>
    if 2 ≤ (rfindall capTokRE ln).length then some (pyStrip ln) else firstNameLine rest

/-- FIO cascade (main.py lines 282-300). -/
def extractFio (lines : List String) (jt : String) : Option String :=
  let f1 : Option String :=
    match group1Of jt (research famRE jt) with
    | none => none
    | some g =>
      let surname := pyStrip g
      match group1Of jt (research (fam2RE surname) jt) with
      | none => some surname
      | some g2 => some (surname ++ " " ++ pyStrip g2)
  if truthyOpt f1 then f1
  else
    let f2 : Option String :=
      match group1Of jt (research fioRE jt) with
      | none => none
      | some g => some (pyStrip g)
    if truthyOpt f2 then f2 else firstNameLine (lines.take 12)

/-- `full_name = fio if fio else "Пациент"` (main.py line 301). -/
def extractName (lines : List String) (jt : String) : String :=
  match extractFio lines jt with
  | some s => if s != "" then s else "Пациент"
  | none => "Пациент"

/-- Date cascade (main.py lines 304-307); `today` stands for
    `datetime.now().strftime("%d.%m.%Y")`. -/
def extractDate (jt : String) (today : String) : String :=
  match group1Of jt (research date1RE jt) with
  | some g => g
  | none =>
    match group1Of jt (research date2RE jt) with
    | some g => g
    | none => today

structure ParseResult where
  fullName : String
  dateStr : String
  analytes : List (String × VR)
deriving DecidableEq, Repr

/-- `parse_pdf` over the page texts the extraction collaborator returned
    (main.py lines 260-334).  The body raises no exception once the page
    texts are in hand, so the embedding is total. -/
def parse_pdf (pages : List String) (today : String) : ParseResult :=
  let joined := joinNL (pages.filter (fun p => p != ""))
  let lines := normalizedLines joined
  let jt := joinNL lines
  { fullName := extractName lines jt
    dateStr := extractDate jt today
    analytes := analytesOf lines jt }

/-! ## The tabular-store helpers (main.py lines 136-256)

The sheet state is modelled by the values the store holds: the column-A
cell values (`colA`) and the header row (`header`).  Every store round trip
a helper performs is recorded as a `StoreOp`, in order. -/

inductive StoreOp where
  | getTitles : StoreOp
  | addSheet : String → StoreOp
  | readRange : String → StoreOp
  | appendRange : String → StoreOp
  | updateRange : String → Bool → StoreOp
deriving DecidableEq, Repr

/-- `[r[0] for r in values]`: first element of every row, evaluated left to
    right; the first empty row raises `IndexError`, modelled by `none`. -/
def headsOf : List (List String) → Option (List String)
  | [] => some []
  | r :: t =>
    match r.head? with
    | none => none
    | some a =>
      match headsOf t with
      | none => none
      | some l => some (a :: l)

/-- `read_column_a` (main.py lines 174-177) over the matrix the store
    returned for range `A:A`: `[r[0] for r in values] if values else []`.
    Indexing an empty row raises `IndexError`, modelled by `none`. -/
def read_column_a (values : List (List String)) : Option (List String) :=
  if values = [] then some [] else headsOf values

/-- `ensure_rows_for_analytes` (main.py lines 191-196): read column A, filter
    the requested names by exact `not in` membership, append the missing ones.
    Returns the column-A state after the call and the store ops performed. -/
def ensure_rows_for_analytes (colA : List String) (analytes : List String) :
    List String × List StoreOp :=
  if analytes.filter (fun a => !(colA.contains a)) = [] then (colA, [.readRange "A:A"])
  else (colA ++ analytes.filter (fun a => !(colA.contains a)),
        [.readRange "A:A", .appendRange "A:A"])

/-- `column_number_to_letter` (main.py lines 199-204), as the list of digits
    the `while` loop prepends; the first argument is fuel bounding the loop
    depth and `n` itself always suffices. -/
def letterCharsAux : Nat → Nat → List Char
  | _, 0 => []
  | 0, _ + 1 => []
  | f + 1, n + 1 => letterCharsAux f (n / 26) ++ [Char.ofNat (65 + n % 26)]

def column_number_to_letter (n : Nat) : String := String.mk (letterCharsAux n n)

/-- `get_next_date_column` (main.py lines 207-224): read the header row; if
    the date is present return its column with no write, otherwise write the
    date into the next free header cell.  Returns the column letter, the
    header row after the call, and the store ops performed. -/
def get_next_date_column (header : List String) (dateStr : String) :
    String × List String × List StoreOp :=
  if header.contains dateStr then
    (column_number_to_letter (header.indexOf dateStr + 1), header, [.readRange "1:1"])
  else
    let col := column_number_to_letter (header.length + 1)
    (col, header ++ [dateStr], [.readRange "1:1", .updateRange (col ++ "1") true])

/-- Row lookup of `get_row_for_analyte` (main.py lines 227-232): first
    1-based index whose column-A value equals the analyte after
    `strip().lower()`. -/
def findRowAux : List String → String → Nat → Option Nat
  | [], _, _ => none
  | name :: rest, key, i =>
    if pyLowerStr (pyStrip name) == key then some i else findRowAux rest key (i + 1)

def get_row_for_analyte (colA : List String) (analyte : String) : Option Nat :=
  findRowAux colA (pyLowerStr (pyStrip analyte)) 1

def cellName (colL : String) (row : Nat) : String := colL ++ toString row

structure WVOut where
  colA : List String
  ops : List StoreOp
  attempts : List (String × String × Bool)
deriving DecidableEq, Repr

/-- `write_values` (main.py lines 235-256).  For each analyte in the mapping:
    `get_row_for_analyte` (one column-A read); if no row matches, append one
    and re-read column A; then attempt the single-cell update, which is
    wrapped in `try/except`, so a failed write (oracle `failP`) is logged and
    the loop continues.  `attempts` records `(analyte, cell, succeeded)`. -/
def write_values (failP : String → Bool) (colL : String) :
    List String → List (String × String) → WVOut
  | colA, [] => ⟨colA, [], []⟩
  | colA, (a, _) :: rest =>
    match get_row_for_analyte colA a with
    | some row =>
      let cell := cellName colL row
      let ok := !(failP cell)
      let out := write_values failP colL colA rest
      ⟨out.colA, .readRange "A:A" :: .updateRange cell ok :: out.ops,
       (a, cell, ok) :: out.attempts⟩
    | none =>
      let colA2 := colA ++ [a]
      let row := colA2.length
      let cell := cellName colL row
      let ok := !(failP cell)
      let out := write_values failP colL colA2 rest
      ⟨out.colA,
       .readRange "A:A" :: .appendRange "A:A" :: .readRange "A:A" ::
         .updateRange cell ok :: out.ops,
       (a, cell, ok) :: out.attempts⟩

/-- `ensure_patient_sheet` (main.py lines 164-171) with the sheet-creation
    calls of `create_patient_sheet` (lines 141-161). -/
def ensure_patient_sheet (titles : List String) (name : String) : List StoreOp :=
  .getTitles ::
    (if titles.contains name then [] else [.addSheet name, .updateRange "A1:B1" true])

/-- `values_for_write` construction of `handle_pdf` (main.py lines 427-438):
    case-insensitive mapping of extracted names onto existing row names. -/
def build_values_for_write (sheetRows : List String) (analytes : List (String × VR)) :
    List (String × String) :=
  let lmap := sheetRows.foldl (fun m r => dinsert m (pyLowerStr (pyStrip r)) r) []
  analytes.foldl (fun vfw p =>
    match dlookup lmap (pyLowerStr (pyStrip p.1)) with
    | some target => dinsert vfw target p.2.value
    | none => dinsert vfw p.1 p.2.value) []

/-- The store interaction `handle_pdf` performs after a successful parse
    (main.py lines 397-448): sheet provisioning, row reconciliation, date
    column resolution, the column-A read for `values_for_write`, and the
    per-cell writes.  `colA0` / `header0` describe the patient sheet when it
    already exists; a freshly created sheet starts from its header row. -/
def process_document (titles : List String) (colA0 header0 : List String)
    (pages : List String) (today : String) (failP : String → Bool) : List StoreOp :=
  let r := parse_pdf pages today
  let name := r.fullName
  let opsSheet := ensure_patient_sheet titles name
  let colA := if titles.contains name then colA0 else ["Показатель"]
  let header := if titles.contains name then header0 else ["Показатель", "Референс"]
  let rowsOut := ensure_rows_for_analytes colA (r.analytes.map (fun p => p.1))
  let colOut := get_next_date_column header r.dateStr
  let vfw := build_values_for_write rowsOut.1 r.analytes
  let wv := write_values failP colOut.1 rowsOut.1 vfw
  opsSheet ++ rowsOut.2 ++ colOut.2.2 ++ [.readRange "A:A"] ++ wv.ops

/-! ## Support lemmas -/

theorem toNat_ofNat_small (n : Nat) (h : n < 55296) : (Char.ofNat n).toNat = n := by
  rw [Char.ofNat, dif_pos (Or.inl h)]
  rfl

/-! ## C6: the column-letter encoding is bijective base 26 without a zero digit -/

/-- Value of a letter string in bijective base 26 (`A` is digit 1, …,
    `Z` is digit 26): the decoding direction of the claimed bijection. -/
def toColNum (s : String) : Nat :=
  s.data.foldl (fun a c => a * 26 + (c.toNat - 64)) 0

theorem letterCharsAux_foldl (f : Nat) : ∀ n acc, n ≤ f →
    (letterCharsAux f n).foldl (fun a c => a * 26 + (c.toNat - 64)) acc =
      acc * 26 ^ (letterCharsAux f n).length + n := by
  induction f with
  | zero =>
    intro n acc hn
    interval_cases n
    simp [letterCharsAux]
  | succ f ih =>
    intro n acc hn
    match n with
    | 0 => simp [letterCharsAux]
    | n + 1 =>
      have hdiv : n / 26 ≤ f := le_trans (Nat.div_le_self n 26) (Nat.lt_succ_iff.mp hn)
      have hch : (Char.ofNat (65 + n % 26)).toNat = 65 + n % 26 :=
        toNat_ofNat_small _ (by have := Nat.mod_lt n (by norm_num : 0 < 26); omega)
      simp only [letterCharsAux, List.foldl_append, List.length_append, ih _ _ hdiv,
        List.foldl_cons, List.foldl_nil, List.length_cons, List.length_nil]
      rw [hch]
      have hmod : n % 26 < 26 := Nat.mod_lt n (by norm_num)
      have hdm : 26 * (n / 26) + n % 26 = n := Nat.div_add_mod n 26
      ring_nf
      omega

theorem letterCharsAux_range (f : Nat) : ∀ n,
    (letterCharsAux f n).all (fun c => 65 ≤ c.toNat && c.toNat ≤ 90) = true := by
  induction f with
  | zero => intro n; cases n <;> simp [letterCharsAux]
  | succ f ih =>
    intro n
    match n with
    | 0 => simp [letterCharsAux]
    | n + 1 =>
      have hch : (Char.ofNat (65 + n % 26)).toNat = 65 + n % 26 :=
        toNat_ofNat_small _ (by have := Nat.mod_lt n (by norm_num : 0 < 26); omega)
      have hmod : n % 26 < 26 := Nat.mod_lt n (by norm_num)
      simp only [letterCharsAux, List.all_append, ih, List.all_cons, List.all_nil,
        Bool.and_eq_true, decide_eq_true_eq, hch, Bool.and_true, true_and]
      constructor <;> [omega; omega]

/-- **C6.**  `column_number_to_letter` realizes the bijective base-26 letter
    encoding with no zero digit: decoding the produced string under
    digit values `A` = 1 … `Z` = 26 recovers every input, every produced
    character is one of the 26 letters, and in particular
    1 ↦ "A", 26 ↦ "Z", 27 ↦ "AA", 52 ↦ "AZ", 53 ↦ "BA". -/
theorem c6_column_letter_bijective :
    (∀ n : Nat, toColNum (column_number_to_letter n) = n) ∧
    (∀ n : Nat, (column_number_to_letter n).data.all
        (fun c => 65 ≤ c.toNat && c.toNat ≤ 90) = true) ∧
    column_number_to_letter 1 = "A" ∧ column_number_to_letter 26 = "Z" ∧
    column_number_to_letter 27 = "AA" ∧ column_number_to_letter 52 = "AZ" ∧
    column_number_to_letter 53 = "BA" := by
  refine ⟨fun n => ?_, fun n => ?_, by decide, by decide, by decide, by decide, by decide⟩
  · have := letterCharsAux_foldl n n 0 le_rfl
    simpa [toColNum, column_number_to_letter] using this
  · simpa [column_number_to_letter] using letterCharsAux_range n n

/-! ## C10: `read_column_a` is total only on matrices without blank rows -/

theorem headsOf_none : ∀ values : List (List String),
    (∃ r ∈ values, r = []) → headsOf values = none := by
  intro values h
  induction values with
  | nil => simp at h
  | cons r t ih =>
    rcases h with ⟨x, hx, hxe⟩
    rcases List.mem_cons.mp hx with h1 | h1
    · subst h1; subst hxe; rfl
    · rw [headsOf, ih ⟨x, h1, hxe⟩]
      cases r.head? <;> rfl

theorem headsOf_some : ∀ values : List (List String),
    (∀ r ∈ values, r ≠ []) → ∃ names, headsOf values = some names := by
  intro values h
  induction values with
  | nil => exact ⟨[], rfl⟩
  | cons r t ih =>
    rcases ih (fun x hx => h x (List.mem_cons_of_mem _ hx)) with ⟨names, hn⟩
    match r, h r (List.mem_cons_self r t) with
    | a :: r, _ => exact ⟨a :: names, by simp [headsOf, hn]⟩

/-- **C10.**  `read_column_a` takes the first element of every returned row,
    so it is total exactly when no returned row is empty: with a blank row in
    the store result it raises (`none`); with all rows non-empty it returns
    the list of names. -/
theorem c10_read_column_a_blank_rows : ∀ values : List (List String),
    ((∃ r ∈ values, r = []) → read_column_a values = none) ∧
    ((∀ r ∈ values, r ≠ []) → ∃ names, read_column_a values = some names) := by
  intro values
  constructor
  · rintro ⟨r, hr, hre⟩
    have hne : values ≠ [] := by intro h; subst h; simp at hr
    rw [read_column_a, if_neg hne]
    exact headsOf_none values ⟨r, hr, hre⟩
  · intro h
    rcases headsOf_some values h with ⟨names, hn⟩
    by_cases hv : values = []
    · exact ⟨[], by rw [read_column_a, if_pos hv]⟩
    · exact ⟨names, by rw [read_column_a, if_neg hv]; exact hn⟩

theorem c10_read_column_a_blank_rows_witness :
    read_column_a [["Глюкоза"], []] = none ∧
    ∃ names, read_column_a [["Глюкоза"], ["5.4"]] = some names :=
  ⟨(c10_read_column_a_blank_rows [["Глюкоза"], []]).1 ⟨[], by decide, rfl⟩,
   (c10_read_column_a_blank_rows [["Глюкоза"], ["5.4"]]).2 (by decide)⟩

/-! ## C1: row reconciliation matches names exactly, not case-insensitively -/

/-- **C1, counterexample.**  With the sheet already holding `"Глюкоза"` in
    column A, reconciling the name set `{"глюкоза"}` — the same name up to
    letter case — appends a second row (an append round trip is performed),
    so the matching is not case-insensitive and the two spellings occupy two
    rows. -/
theorem c1_counterexample :
    (ensure_rows_for_analytes ["Глюкоза"] ["глюкоза"]).1 = ["Глюкоза", "глюкоза"] ∧
    (ensure_rows_for_analytes ["Глюкоза"] ["глюкоза"]).2 =
      [.readRange "A:A", .appendRange "A:A"] := by decide

theorem ensure_rows_fst (colA analytes : List String) :
    (ensure_rows_for_analytes colA analytes).1 =
      colA ++ analytes.filter (fun a => !(colA.contains a)) := by
  rw [ensure_rows_for_analytes]
  by_cases h : analytes.filter (fun a => !(colA.contains a)) = []
  · rw [if_pos h, h, List.append_nil]
  · rw [if_neg h]

/-- **C1, amended.**  Row reconciliation matches requested names against the
    existing column-A values by exact string equality (`not in`): the rows
    appended are exactly the requested names not literally present, in
    requested order; a second run with the same name set against the
    resulting sheet appends nothing (one read, no append). -/
theorem c1_amended_exact_match_idempotent : ∀ colA analytes : List String,
    (ensure_rows_for_analytes colA analytes).1 =
      colA ++ analytes.filter (fun a => !(colA.contains a)) ∧
    (ensure_rows_for_analytes (ensure_rows_for_analytes colA analytes).1 analytes).1 =
      (ensure_rows_for_analytes colA analytes).1 ∧
    (ensure_rows_for_analytes (ensure_rows_for_analytes colA analytes).1 analytes).2 =
      [.readRange "A:A"] := by
  intro colA analytes
  have hafter := ensure_rows_fst colA analytes
  have hnone : analytes.filter
      (fun a => !((ensure_rows_for_analytes colA analytes).1.contains a)) = [] := by
    rw [hafter]
    apply List.filter_eq_nil_iff.mpr
    intro a ha
    by_cases hc : a ∈ colA <;>
      simp [List.contains, List.mem_append, List.mem_filter, ha, hc]
  refine ⟨hafter, ?_, ?_⟩
  · rw [ensure_rows_fst _ analytes, hnone, List.append_nil]
  · rw [ensure_rows_for_analytes, if_pos hnone]

/-! ## C5: column resolution for a date already present is read-only and
    idempotent -/

/-- **C5.**  If the date string is already present in the header row, the
    column resolver returns the letter of its first position, performs only
    the header read (no write), leaves the header unchanged, and a second
    call on the resulting header returns the identical result. -/
theorem c5_column_idempotent : ∀ (header : List String) (d : String), d ∈ header →
    (get_next_date_column header d).1 = column_number_to_letter (header.indexOf d + 1) ∧
    (get_next_date_column header d).2.1 = header ∧
    (get_next_date_column header d).2.2 = [.readRange "1:1"] ∧
    get_next_date_column (get_next_date_column header d).2.1 d =
      get_next_date_column header d := by
  intro header d hmem
  have hc : header.contains d = true := List.elem_iff.mpr hmem
  have hres : get_next_date_column header d =
      (column_number_to_letter (header.indexOf d + 1), header, [.readRange "1:1"]) := by
    rw [get_next_date_column, if_pos hc]
  refine ⟨by rw [hres], by rw [hres], by rw [hres], ?_⟩
  rw [hres]
  exact hres

theorem c5_column_idempotent_witness :
    (get_next_date_column ["Показатель", "Референс", "01.02.2024"] "01.02.2024").1 = "C" ∧
    (get_next_date_column ["Показатель", "Референс", "01.02.2024"] "01.02.2024").2.1 =
      ["Показатель", "Референс", "01.02.2024"] := by
  have h := c5_column_idempotent ["Показатель", "Референс", "01.02.2024"] "01.02.2024"
    (by decide)
  exact ⟨by rw [h.1]; decide, h.2.1⟩

/-! ## C3: `write_values` performs per-cell round trips, not one batch -/

/-- **C3, counterexample.**  With both analytes already having rows, writing
    one analyte costs 2 store round trips and writing two costs 4 — one
    column-A read plus one single-cell update per analyte, and no batched
    update operation — so the round-trip count is not a constant independent
    of the analyte count. -/
theorem c3_counterexample :
    (write_values (fun _ => false) "C" ["Аб", "Вг"] [("Аб", "1")]).ops.length = 2 ∧
    (write_values (fun _ => false) "C" ["Аб", "Вг"] [("Аб", "1"), ("Вг", "2")]).ops.length
      = 4 ∧
    (write_values (fun _ => false) "C" ["Аб", "Вг"] [("Аб", "1"), ("Вг", "2")]).ops =
      [.readRange "A:A", .updateRange "C1" true,
       .readRange "A:A", .updateRange "C2" true] := by decide

def isUpdateOp : StoreOp → Bool
  | .updateRange _ _ => true
  | _ => false

/-- **C3, amended.**  Each analyte in the mapping incurs its own column-A
    read and its own single-cell update (plus an append and a re-read when
    its row is missing): the update count equals the analyte count and the
    total store-operation count is at least twice the analyte count, hence
    linear in it rather than a constant. -/
theorem write_values_ops_cons_some (failP : String → Bool) (colL : String)
    (colA : List String) (a v : String) (rest : List (String × String)) (row : Nat)
    (hrow : get_row_for_analyte colA a = some row) :
    (write_values failP colL colA ((a, v) :: rest)).ops =
      .readRange "A:A" ::
        .updateRange (cellName colL row) (!(failP (cellName colL row))) ::
        (write_values failP colL colA rest).ops := by
  simp only [write_values, hrow]

theorem write_values_ops_cons_none (failP : String → Bool) (colL : String)
    (colA : List String) (a v : String) (rest : List (String × String))
    (hrow : get_row_for_analyte colA a = none) :
    (write_values failP colL colA ((a, v) :: rest)).ops =
      .readRange "A:A" :: .appendRange "A:A" :: .readRange "A:A" ::
        .updateRange (cellName colL (colA ++ [a]).length)
          (!(failP (cellName colL (colA ++ [a]).length))) ::
        (write_values failP colL (colA ++ [a]) rest).ops := by
  simp only [write_values, hrow]

theorem write_values_att_cons_some (failP : String → Bool) (colL : String)
    (colA : List String) (a v : String) (rest : List (String × String)) (row : Nat)
    (hrow : get_row_for_analyte colA a = some row) :
    (write_values failP colL colA ((a, v) :: rest)).attempts =
      (a, cellName colL row, !(failP (cellName colL row))) ::
        (write_values failP colL colA rest).attempts := by
  simp only [write_values, hrow]

theorem write_values_att_cons_none (failP : String → Bool) (colL : String)
    (colA : List String) (a v : String) (rest : List (String × String))
    (hrow : get_row_for_analyte colA a = none) :
    (write_values failP colL colA ((a, v) :: rest)).attempts =
      (a, cellName colL (colA ++ [a]).length,
         !(failP (cellName colL (colA ++ [a]).length))) ::
        (write_values failP colL (colA ++ [a]) rest).attempts := by
  simp only [write_values, hrow]

theorem c3_amended_linear_roundtrips : ∀ (failP : String → Bool) (colL : String)
    (colA : List String) (d : List (String × String)),
    ((write_values failP colL colA d).ops.filter isUpdateOp).length = d.length ∧
    2 * d.length ≤ (write_values failP colL colA d).ops.length := by
  intro failP colL colA d
  induction d generalizing colA with
  | nil => simp [write_values]
  | cons p rest ih =>
    obtain ⟨a, v⟩ := p
    cases hrow : get_row_for_analyte colA a with
    | some row =>
      rw [write_values_ops_cons_some failP colL colA a v rest row hrow]
      have h1 := (ih colA).1
      have h2 := (ih colA).2
      refine ⟨?_, ?_⟩
      · simp [List.filter_cons, isUpdateOp, h1]
      · simp only [List.length_cons]
        omega
    | none =>
      rw [write_values_ops_cons_none failP colL colA a v rest hrow]
      have h1 := (ih (colA ++ [a])).1
      have h2 := (ih (colA ++ [a])).2
      refine ⟨?_, ?_⟩
      · simp [List.filter_cons, isUpdateOp, h1]
      · simp only [List.length_cons]
        omega

/-! ## C9: a failed cell write is recorded and does not abort the batch -/

/-- **C9.**  In one `write_values` invocation every analyte of the mapping
    gets exactly one cell-write attempt, in order, whatever the failure
    oracle says about earlier cells (the `try/except` keeps the loop going),
    and each attempt records success exactly when its cell write does not
    fail — so a failure is recorded for its analyte while sibling writes are
    still attempted. -/
theorem c9_partial_write : ∀ (failP : String → Bool) (colL : String)
    (colA : List String) (d : List (String × String)),
    (write_values failP colL colA d).attempts.map (fun t => t.1) =
      d.map (fun p => p.1) ∧
    ∀ t ∈ (write_values failP colL colA d).attempts, t.2.2 = !(failP t.2.1) := by
  intro failP colL colA d
  induction d generalizing colA with
  | nil => simp [write_values]
  | cons p rest ih =>
    obtain ⟨a, v⟩ := p
    cases hrow : get_row_for_analyte colA a with
    | some row =>
      rw [write_values_att_cons_some failP colL colA a v rest row hrow]
      refine ⟨by simpa using (ih colA).1, ?_⟩
      intro t ht
      rcases List.mem_cons.mp ht with h1 | h1
      · subst h1; rfl
      · exact (ih colA).2 t h1
    | none =>
      rw [write_values_att_cons_none failP colL colA a v rest hrow]
      refine ⟨by simpa using (ih (colA ++ [a])).1, ?_⟩
      intro t ht
      rcases List.mem_cons.mp ht with h1 | h1
      · subst h1; rfl
      · exact (ih (colA ++ [a])).2 t h1

/-! ## C7: the fallback strategy is gated on an empty primary result and
    always produces empty references -/

theorem dinsert_ref_empty (d : List (String × VR)) (key : String) (v : VR)
    (hd : ∀ e ∈ d, e.2.ref = "") (hv : v.ref = "") :
    ∀ e ∈ dinsert d key v, e.2.ref = "" := by
  intro e he
  rw [dinsert] at he
  by_cases hc : d.any (fun p => p.1 == key)
  · rw [if_pos hc] at he
    rcases List.mem_map.mp he with ⟨p, hp, hpe⟩
    by_cases hk : p.1 == key
    · rw [if_pos hk] at hpe; rw [← hpe]; exact hv
    · rw [if_neg hk] at hpe; rw [← hpe]; exact hd p hp
  · rw [if_neg hc] at he
    rcases List.mem_append.mp he with h1 | h1
    · exact hd e h1
    · rcases List.mem_singleton.mp h1 with rfl
      exact hv

theorem fallback_fold_ref_empty :
    ∀ (ts : List (String × String × String)) (d0 : List (String × VR)),
    (∀ e ∈ d0, e.2.ref = "") →
    ∀ e ∈ ts.foldl (fun d t => dinsert d (pyStrip t.1) ⟨commaToDot t.2.1, ""⟩) d0,
      e.2.ref = "" := by
  intro ts
  induction ts with
  | nil => intro d0 h0 e he; exact h0 e he
  | cons t rest ih =>
    intro d0 h0 e he
    exact ih (dinsert d0 (pyStrip t.1) ⟨commaToDot t.2.1, ""⟩)
      (dinsert_ref_empty d0 _ _ h0 rfl) e he

/-- **C7.**  The fallback token strategy runs only when the primary
    structural pattern produced zero records over the entire document: with
    a non-empty primary result the analyte mapping is exactly the primary
    result (the fallback never runs), with an empty one it is exactly the
    fallback result; and every record the fallback produces has an empty
    reference string. -/
theorem c7_fallback_policy : ∀ (lines : List String) (jt : String),
    (primaryPass lines ≠ [] → analytesOf lines jt = primaryPass lines) ∧
    (primaryPass lines = [] → analytesOf lines jt = fallbackPass jt) ∧
    (∀ e ∈ fallbackPass jt, e.2.ref = "") := by
  intro lines jt
  refine ⟨fun h => ?_, fun h => ?_, ?_⟩
  · rw [analytesOf]
    simp only [List.isEmpty_iff]
    rw [if_neg h]
  · rw [analytesOf]
    simp only [List.isEmpty_iff]
    rw [if_pos h]
  · intro e he
    exact fallback_fold_ref_empty (fallbackTokens jt) [] (by intro e h; simp at h) e he

theorem c7_fallback_policy_witness :
    analytesOf ["Гемоглобин 155 г/л 135–169"] "Гемоглобин 155 г/л 135–169" =
      primaryPass ["Гемоглобин 155 г/л 135–169"] ∧
    analytesOf ["хол: 5 мг"] "хол: 5 мг" = fallbackPass "хол: 5 мг" ∧
    (("хол", ⟨"5", ""⟩) : String × VR).2.ref = "" :=
  ⟨(c7_fallback_policy ["Гемоглобин 155 г/л 135–169"] "Гемоглобин 155 г/л 135–169").1
      (by decide),
   (c7_fallback_policy ["хол: 5 мг"] "хол: 5 мг").2.1 (by decide),
   (c7_fallback_policy ["хол: 5 мг"] "хол: 5 мг").2.2 ("хол", ⟨"5", ""⟩) (by decide)⟩

/-! ## C4: the reference normalizer on the matcher's reference language -/

/-- Case-insensitive character-list equality, as Python `re` compares a
    candidate against a literal under `re.IGNORECASE`. -/
def ciListEq : List Char → List Char → Bool
  | [], [] => true
  | a :: as, b :: bs => pyLower a == pyLower b && ciListEq as bs
  | _, _ => false

def ciStrEq (s t : String) : Bool := ciListEq s.data t.data

/-- `[\d.,<>]+–[\d.,<>]+`, matched fully.  The en-dash is not in the class,
    so the first run is exactly the maximal class run. -/
def isRangeRef (l : List Char) : Bool :=
  match l.dropWhile isRefCh with
  | c :: b => !(l.takeWhile isRefCh).isEmpty && c == '–' && !b.isEmpty && b.all isRefCh
  | [] => false

/-- `<\d+`, matched fully. -/
def isLtRef (l : List Char) : Bool :=
  match l with
  | c :: rest => c == '<' && !rest.isEmpty && rest.all isDigitCh
  | [] => false

/-- The `>\d+` shape of `>?\d+`, matched fully. -/
def isGtRef (l : List Char) : Bool :=
  match l with
  | c :: rest => c == '>' && !rest.isEmpty && rest.all isDigitCh
  | [] => false

/-- The bare-number shape of `>?\d+`, matched fully. -/
def isBareNumRef (l : List Char) : Bool := !l.isEmpty && l.all isDigitCh

/-- The language of group 3 of the primary pattern — the strings the matcher
    can produce as a (non-empty) reference:
    `[\d.,<>]+–[\d.,<>]+|<\d+|>?\d+|отрицательно|не обнаружено` under
    `re.IGNORECASE`. -/
def refMatches (s : String) : Bool :=
  isRangeRef s.data || isLtRef s.data || isGtRef s.data || isBareNumRef s.data ||
  ciStrEq s "отрицательно" || ciStrEq s "не обнаружено"

theorem isPySp_iff (c : Char) : isPySp c = true ↔
    (c.toNat = 32 ∨ c.toNat = 9 ∨ c.toNat = 10 ∨ c.toNat = 13 ∨
     c.toNat = 11 ∨ c.toNat = 12 ∨ c.toNat = 133 ∨ c.toNat = 160) := by
  simp only [isPySp, Bool.or_eq_true, beq_iff_eq]
  tauto

theorem refCh_not_sp : ∀ c : Char, isRefCh c = true → isPySp c = false := by
  intro c h
  simp only [isRefCh, isDigitCh, Bool.or_eq_true, Bool.and_eq_true,
    decide_eq_true_eq, beq_iff_eq] at h
  apply Bool.eq_false_iff.mpr
  intro hsp
  rw [isPySp_iff] at hsp
  rcases h with (((⟨h1, h2⟩ | h) | h) | h) | h
  · rcases hsp with hs | hs | hs | hs | hs | hs | hs | hs <;> omega
  all_goals (subst h; revert hsp; decide)

theorem digit_not_sp : ∀ c : Char, isDigitCh c = true → isPySp c = false := by
  intro c h
  exact refCh_not_sp c (by simp only [isRefCh, h, Bool.true_or])

theorem space_toNat : (' ' : Char).toNat = 32 := rfl

theorem pyLower_sp (c : Char) : isPySp (pyLower c) = isPySp c := by
  rw [pyLower]
  by_cases h1 : 65 ≤ c.toNat ∧ c.toNat ≤ 90
  · rw [if_pos (by simp [h1.1, h1.2])]
    have ht : (Char.ofNat (c.toNat + 32)).toNat = c.toNat + 32 :=
      toNat_ofNat_small _ (by omega)
    have h65 := h1.1
    have h90 := h1.2
    apply Bool.eq_iff_iff.mpr
    rw [isPySp_iff, isPySp_iff, ht]
    omega
  · rw [if_neg (by simpa [Bool.and_eq_true, decide_eq_true_eq, not_and] using
      fun ha hb => h1 ⟨ha, hb⟩)]
    by_cases h2 : 1040 ≤ c.toNat ∧ c.toNat ≤ 1071
    · rw [if_pos (by simp [h2.1, h2.2])]
      have ht : (Char.ofNat (c.toNat + 32)).toNat = c.toNat + 32 :=
        toNat_ofNat_small _ (by omega)
      have ha := h2.1
      have hb := h2.2
      apply Bool.eq_iff_iff.mpr
      rw [isPySp_iff, isPySp_iff, ht]
      omega
    · rw [if_neg (by simpa [Bool.and_eq_true, decide_eq_true_eq, not_and] using
        fun ha hb => h2 ⟨ha, hb⟩)]
      by_cases h3 : (c.toNat == 1025) = true
      · rw [if_pos h3]
        have h1025 : c.toNat = 1025 := beq_iff_eq.mp h3
        have ht : (Char.ofNat 1105).toNat = 1105 := toNat_ofNat_small _ (by omega)
        apply Bool.eq_iff_iff.mpr
        rw [isPySp_iff, isPySp_iff, ht, h1025]
        omega
      · rw [if_neg h3]

theorem pyLower_space_inv (c : Char) : pyLower c = ' ' → c = ' ' := by
  intro h
  rw [pyLower] at h
  by_cases h1 : 65 ≤ c.toNat ∧ c.toNat ≤ 90
  · rw [if_pos (by simp [h1.1, h1.2])] at h
    have ht : (Char.ofNat (c.toNat + 32)).toNat = c.toNat + 32 :=
      toNat_ofNat_small _ (by omega)
    have := congrArg Char.toNat h
    rw [ht, space_toNat] at this
    have h65 := h1.1
    omega
  · rw [if_neg (by simpa [Bool.and_eq_true, decide_eq_true_eq, not_and] using
      fun ha hb => h1 ⟨ha, hb⟩)] at h
    by_cases h2 : 1040 ≤ c.toNat ∧ c.toNat ≤ 1071
    · rw [if_pos (by simp [h2.1, h2.2])] at h
      have ht : (Char.ofNat (c.toNat + 32)).toNat = c.toNat + 32 :=
        toNat_ofNat_small _ (by omega)
      have := congrArg Char.toNat h
      rw [ht, space_toNat] at this
      have h40 := h2.1
      omega
    · rw [if_neg (by simpa [Bool.and_eq_true, decide_eq_true_eq, not_and] using
        fun ha hb => h2 ⟨ha, hb⟩)] at h
      by_cases h3 : (c.toNat == 1025) = true
      · rw [if_pos h3] at h
        have ht : (Char.ofNat 1105).toNat = 1105 := toNat_ofNat_small _ (by omega)
        have := congrArg Char.toNat h
        rw [ht, space_toNat] at this
        omega
      · rwa [if_neg h3] at h

theorem ciListEq_space : ∀ l m : List Char, ciListEq l m = true →
    (∀ t ∈ m, isPySp t = true → t = ' ') →
    ∀ c ∈ l, isPySp c = true → c = ' ' := by
  intro l
  induction l with
  | nil => intro m _ _ c hc; simp at hc
  | cons a as ih =>
    intro m hci hm c hc hsp
    match m, hci with
    | b :: bs, hci =>
      have h1 : (pyLower a == pyLower b) = true ∧ ciListEq as bs = true := by
        simpa [ciListEq, Bool.and_eq_true] using hci
      rcases List.mem_cons.mp hc with rfl | hmem
      · have hb : isPySp b = true := by
          rw [← pyLower_sp b, ← (beq_iff_eq.mp h1.1), pyLower_sp]
          exact hsp
        have hbsp : b = ' ' := hm b (List.mem_cons_self b bs) hb
        apply pyLower_space_inv
        rw [beq_iff_eq.mp h1.1, hbsp]
        rfl
      · exact ih bs h1.2 (fun t ht => hm t (List.mem_cons_of_mem _ ht)) c hmem hsp

theorem isRange_no_sp (l : List Char) (h : isRangeRef l = true) :
    ∀ c ∈ l, isPySp c = false := by
  intro c hc
  cases hsplit : l.dropWhile isRefCh with
  | nil => rw [isRangeRef, hsplit] at h; exact absurd h (by simp)
  | cons d b =>
    rw [isRangeRef, hsplit] at h
    simp only [Bool.and_eq_true, beq_iff_eq] at h
    have hl : l = l.takeWhile isRefCh ++ d :: b := by
      rw [← hsplit, List.takeWhile_append_dropWhile]
    rw [hl] at hc
    rcases List.mem_append.mp hc with hmem | hmem
    · exact refCh_not_sp c (List.mem_takeWhile_imp hmem)
    · rcases List.mem_cons.mp hmem with rfl | hmemb
      · rw [h.1.1.2]; decide
      · exact refCh_not_sp c (List.all_eq_true.mp h.2 c hmemb)

theorem isLt_no_sp (l : List Char) (h : isLtRef l = true) :
    ∀ c ∈ l, isPySp c = false := by
  intro c hc
  match l, h with
  | d :: rest, h =>
    simp only [isLtRef, Bool.and_eq_true, beq_iff_eq] at h
    rcases List.mem_cons.mp hc with rfl | hmem
    · rw [h.1.1]; decide
    · exact digit_not_sp c (List.all_eq_true.mp h.2 c hmem)

theorem isGt_no_sp (l : List Char) (h : isGtRef l = true) :
    ∀ c ∈ l, isPySp c = false := by
  intro c hc
  match l, h with
  | d :: rest, h =>
    simp only [isGtRef, Bool.and_eq_true, beq_iff_eq] at h
    rcases List.mem_cons.mp hc with rfl | hmem
    · rw [h.1.1]; decide
    · exact digit_not_sp c (List.all_eq_true.mp h.2 c hmem)

theorem isBare_no_sp (l : List Char) (h : isBareNumRef l = true) :
    ∀ c ∈ l, isPySp c = false := by
  intro c hc
  simp only [isBareNumRef, Bool.and_eq_true] at h
  exact digit_not_sp c (List.all_eq_true.mp h.2 c hc)

/-- All whitespace in a matcher-produced reference is the plain space
    character (the one `replace(" ", "")` removes). -/
theorem refMatches_ws_space : ∀ s : String, refMatches s = true →
    ∀ c ∈ s.data, isPySp c = true → c = ' ' := by
  intro s h c hc hsp
  simp only [refMatches, Bool.or_eq_true] at h
  rcases h with ((((h | h) | h) | h) | h) | h
  · exact absurd hsp (by simp [isRange_no_sp s.data h c hc])
  · exact absurd hsp (by simp [isLt_no_sp s.data h c hc])
  · exact absurd hsp (by simp [isGt_no_sp s.data h c hc])
  · exact absurd hsp (by simp [isBare_no_sp s.data h c hc])
  · exact ciListEq_space s.data ("отрицательно").data h (by decide) c hc hsp
  · exact ciListEq_space s.data ("не обнаружено").data h (by decide) c hc hsp

theorem filter_dropWhile_sp (l : List Char)
    (hws : ∀ c ∈ l, isPySp c = true → c = ' ') :
    (l.dropWhile isPySp).filter (fun c => c != ' ') =
      l.filter (fun c => c != ' ') := by
  induction l with
  | nil => rfl
  | cons a t ih =>
    by_cases hsp : isPySp a = true
    · have ha : a = ' ' := hws a (List.mem_cons_self a t) hsp
      rw [List.dropWhile_cons, if_pos hsp,
        ih (fun c hc h => hws c (List.mem_cons_of_mem _ hc) h),
        List.filter_cons, if_neg (by subst ha; simp)]
    · rw [List.dropWhile_cons, if_neg hsp]

theorem filter_pyStrip (l : List Char)
    (hws : ∀ c ∈ l, isPySp c = true → c = ' ') :
    (pyStripList l).filter (fun c => c != ' ') = l.filter (fun c => c != ' ') := by
  have hsubA : ∀ c ∈ l.dropWhile isPySp, c ∈ l :=
    fun c hc => (List.dropWhile_sublist isPySp).subset hc
  rw [pyStripList, List.filter_reverse,
    filter_dropWhile_sp _
      (fun c hc h => hws c (hsubA c (List.mem_reverse.mp hc)) h),
    List.filter_reverse, List.reverse_reverse, filter_dropWhile_sp _ hws]

/-- **C4.**  On every reference string the matcher can produce, the
    normalizer `ref.strip().replace(" ", "")` amounts to removing the space
    characters: the result carries no whitespace at all; a reference without
    spaces (every numeric form) passes through unchanged; and each of the
    two recognized negative-result phrases is rewritten to its single
    space-free canonical spelling, `"не обнаружено" ↦ "необнаружено"` and
    `"отрицательно" ↦ "отрицательно"`. -/
theorem c4_reference_normalizer : ∀ s : String, refMatches s = true →
    normalizeRef s = despace s ∧
    (normalizeRef s).data.all (fun c => !(isPySp c)) = true ∧
    (s.data.all (fun c => c != ' ') = true → normalizeRef s = s) ∧
    (s = "не обнаружено" → normalizeRef s = "необнаружено") ∧
    (s = "отрицательно" → normalizeRef s = "отрицательно") := by
  intro s h
  have hws := refMatches_ws_space s h
  have h1 : normalizeRef s = despace s := by
    rw [normalizeRef, despace, despace]
    show String.mk ((pyStripList s.data).filter _) = String.mk (s.data.filter _)
    rw [filter_pyStrip s.data hws]
  refine ⟨h1, ?_, ?_, ?_, ?_⟩
  · rw [h1]
    apply List.all_eq_true.mpr
    intro c hc
    rcases List.mem_filter.mp hc with ⟨hmem, hne⟩
    by_cases hsp : isPySp c = true
    · exact absurd (hws c hmem hsp) (by simpa using hne)
    · simpa using hsp
  · intro hall
    rw [h1, despace, List.filter_eq_self.mpr (List.all_eq_true.mp hall)]
  · rintro rfl; decide
  · rintro rfl; decide

theorem c4_reference_normalizer_witness :
    refMatches "не обнаружено" = true ∧ normalizeRef "не обнаружено" = "необнаружено" ∧
    refMatches "3.5–6.1" = true ∧ normalizeRef "3.5–6.1" = "3.5–6.1" :=
  ⟨by decide, (c4_reference_normalizer "не обнаружено" (by decide)).2.2.2.1 rfl,
   by decide, (c4_reference_normalizer "3.5–6.1" (by decide)).2.2.1 (by decide)⟩

/-! ## C2: an all-empty document raises nothing and the store flow proceeds -/

/-- **C2, counterexample.**  A document both of whose pages yield empty text
    does not make the parser signal any failure: it returns an ordinary
    record (placeholder patient name, default date, empty analyte mapping),
    and the handler then interacts with the store — the first store
    operation of the post-parse flow is the sheet-titles read, and six more
    round trips follow (sheet creation, header write, reads, date-column
    write). -/
theorem c2_counterexample :
    parse_pdf ["", ""] "01.01.2025" = ⟨"Пациент", "01.01.2025", []⟩ ∧
    process_document [] [] [] ["", ""] "01.01.2025" (fun _ => false) =
      [.getTitles, .addSheet "Пациент", .updateRange "A1:B1" true, .readRange "A:A",
       .readRange "1:1", .updateRange "C1" true, .readRange "A:A"] := by decide

/-- **C2, amended.**  For every document whose pages all yield empty text,
    `parse_pdf` raises no error: it returns the placeholder patient name,
    the default (current) date and an empty analyte mapping; the caller then
    still interacts with the store, beginning with the sheet-titles read. -/
theorem c2_amended_empty_pages : ∀ (pages : List String) (today : String)
    (titles colA0 header0 : List String) (failP : String → Bool),
    (∀ p ∈ pages, p = "") →
    parse_pdf pages today = ⟨"Пациент", today, []⟩ ∧
    (process_document titles colA0 header0 pages today failP).head? =
      some .getTitles := by
  intro pages today titles colA0 header0 failP h
  have hfilter : pages.filter (fun p => p != "") = [] := by
    apply List.filter_eq_nil_iff.mpr
    intro p hp
    simp [h p hp]
  have hparse : parse_pdf pages today = ⟨"Пациент", today, []⟩ := by
    have heq : parse_pdf pages today = parse_pdf [] today := by
      simp only [parse_pdf, hfilter, List.filter_nil]
    rw [heq]
    rfl
  refine ⟨hparse, ?_⟩
  simp [process_document, ensure_patient_sheet, hparse]

theorem c2_amended_empty_pages_witness :
    parse_pdf ["", ""] "02.02.2024" = ⟨"Пациент", "02.02.2024", []⟩ ∧
    (process_document ["Пациент"] ["Показатель"] ["Показатель", "Референс"]
        ["", ""] "02.02.2024" (fun _ => false)).head? = some .getTitles :=
  ⟨(c2_amended_empty_pages ["", ""] "02.02.2024" ["Пациент"] ["Показатель"]
      ["Показатель", "Референс"] (fun _ => false) (by decide)).1,
   (c2_amended_empty_pages ["", ""] "02.02.2024" ["Пациент"] ["Показатель"]
      ["Показатель", "Референс"] (fun _ => false) (by decide)).2⟩

/-! ## C8: entries produced from a primary match

The proof needs one engine fact: every character inside a capture-group span
of a successful run is matched by a character class of that group's body.
`REok q G re` says every class of `re` implies the ambient predicate `q`,
and every class inside group `n` also implies `G n`. -/

def spanOk (q : Char → Bool) (s : List Char) (lo hi : Nat) : Prop :=
  ∀ m, lo ≤ m → m < hi → ∃ ch, s.get? m = some ch ∧ q ch = true

def capsGood (G : Nat → Char → Bool) (s : List Char) (lo hi : Nat)
    (c0 c1 : Caps) : Prop :=
  ∀ e ∈ c1, e ∈ c0 ∨
    (lo ≤ e.2.1 ∧ e.2.1 ≤ e.2.2 ∧ e.2.2 ≤ hi ∧
     ∀ m, e.2.1 ≤ m → m < e.2.2 → ∃ ch, s.get? m = some ch ∧ G e.1 ch = true)

def REok (q : Char → Bool) (G : Nat → Char → Bool) : RE → Prop
  | .eps => True
  | .cls p => ∀ c, p c = true → q c = true
  | .seq a b => REok q G a ∧ REok q G b
  | .alt a b => REok q G a ∧ REok q G b
  | .grp n r => REok (fun c => q c && G n c) G r
  | .rep _ _ _ r => REok q G r

theorem spanOk_empty (q : Char → Bool) (s : List Char) (i : Nat) :
    spanOk q s i i := by
  intro m h1 h2
  omega

theorem spanOk_union {q : Char → Bool} {s : List Char} {i j l : Nat}
    (h1 : spanOk q s i j) (h2 : spanOk q s j l) : spanOk q s i l := by
  intro m hm1 hm2
  by_cases hj : m < j
  · exact h1 m hm1 hj
  · exact h2 m (by omega) hm2

theorem capsGood_refl (G : Nat → Char → Bool) (s : List Char) (i j : Nat)
    (caps : Caps) : capsGood G s i j caps caps :=
  fun _ he => Or.inl he

theorem capsGood_trans {G : Nat → Char → Bool} {s : List Char} {i j l : Nat}
    {c0 c1 c2 : Caps} (hij : i ≤ j) (hjl : j ≤ l)
    (h1 : capsGood G s i j c0 c1) (h2 : capsGood G s j l c1 c2) :
    capsGood G s i l c0 c2 := by
  intro e he
  rcases h2 e he with hin | hgood
  · rcases h1 e hin with hin2 | hgood
    · exact Or.inl hin2
    · exact Or.inr ⟨hgood.1, hgood.2.1, by omega, hgood.2.2.2⟩
  · exact Or.inr ⟨by omega, hgood.2.1, hgood.2.2.1, hgood.2.2.2⟩

theorem mrun_sound : ∀ (fuel : Nat) (re : RE) (q : Char → Bool)
    (G : Nat → Char → Bool) (s : List Char) (i : Nat) (caps : Caps)
    (k : Nat → Caps → Option (Nat × Caps)) (r : Nat × Caps),
    REok q G re → mrun fuel re s i caps k = some r →
    ∃ j caps2, i ≤ j ∧ spanOk q s i j ∧ capsGood G s i j caps caps2 ∧
      k j caps2 = some r := by
  intro fuel
  induction fuel with
  | zero => intro re q G s i caps k r _ hm; exact absurd hm (by simp [mrun])
  | succ fuel ih =>
    intro re q G s i caps k r hok hm
    cases re with
    | eps =>
      exact ⟨i, caps, le_rfl, spanOk_empty q s i, capsGood_refl G s i i caps, hm⟩
    | cls p =>
      rw [mrun] at hm
      cases hget : s.get? i with
      | none => rw [hget] at hm; exact absurd hm (by simp)
      | some c =>
        rw [hget] at hm
        have hm2 : (if p c = true then k (i + 1) caps else none) = some r := hm
        by_cases hp : p c = true
        · rw [if_pos hp] at hm2
          refine ⟨i + 1, caps, by omega, ?_, capsGood_refl G s i (i + 1) caps, hm2⟩
          intro m h1 h2
          have hmi : m = i := by omega
          subst hmi
          exact ⟨c, hget, hok c hp⟩
        · rw [if_neg hp] at hm2
          exact absurd hm2 (by simp)
    | seq a b =>
      rw [mrun] at hm
      rcases ih a q G s i caps _ r hok.1 hm with ⟨j1, c1, hij1, sp1, cg1, hk1⟩
      rcases ih b q G s j1 c1 k r hok.2 hk1 with ⟨j2, c2, hj12, sp2, cg2, hk2⟩
      exact ⟨j2, c2, by omega, spanOk_union sp1 sp2,
        capsGood_trans hij1 hj12 cg1 cg2, hk2⟩
    | alt a b =>
      rw [mrun] at hm
      cases hx : mrun fuel a s i caps k with
      | some r0 =>
        rw [hx] at hm
        simp only [oelse] at hm
        rcases ih a q G s i caps k r0 hok.1 hx with ⟨j, c2, hij, sp, cg, hk⟩
        exact ⟨j, c2, hij, sp, cg, by rw [hk]; exact hm⟩
      | none =>
        rw [hx] at hm
        simp only [oelse] at hm
        exact ih b q G s i caps k r hok.2 hm
    | grp n rr =>
      rw [mrun] at hm
      rcases ih rr (fun c => q c && G n c) G s i caps _ r hok hm with
        ⟨j, c2, hij, sp, cg, hk⟩
      refine ⟨j, (n, i, j) :: c2, hij, ?_, ?_, hk⟩
      · intro m h1 h2
        rcases sp m h1 h2 with ⟨ch, hg, hq⟩
        have hq2 : q ch = true ∧ G n ch = true := by simpa using hq
        exact ⟨ch, hg, hq2.1⟩
      · intro e he
        rcases List.mem_cons.mp he with rfl | hmem
        · refine Or.inr ⟨le_rfl, hij, le_rfl, ?_⟩
          intro m h1 h2
          rcases sp m h1 h2 with ⟨ch, hg, hq⟩
          have hq2 : q ch = true ∧ G n ch = true := by simpa using hq
          exact ⟨ch, hg, hq2.2⟩
        · exact cg e hmem
    | rep mn mx g rr =>
      cases mn with
      | succ m =>
        have hm2 : mrun fuel rr s i caps (fun j caps2 =>
            mrun fuel (.rep m (decrOpt mx) g rr) s j caps2 k) = some r := hm
        rcases ih rr q G s i caps _ r hok hm2 with ⟨j1, c1, hij1, sp1, cg1, hk1⟩
        rcases ih (.rep m (decrOpt mx) g rr) q G s j1 c1 k r hok hk1 with
          ⟨j2, c2, hj12, sp2, cg2, hk2⟩
        exact ⟨j2, c2, by omega, spanOk_union sp1 sp2,
          capsGood_trans hij1 hj12 cg1 cg2, hk2⟩
      | zero =>
        have hbase : k i caps = some r →
            ∃ j caps2, i ≤ j ∧ spanOk q s i j ∧ capsGood G s i j caps caps2 ∧
              k j caps2 = some r :=
          fun h => ⟨i, caps, le_rfl, spanOk_empty q s i,
            capsGood_refl G s i i caps, h⟩
        have hmore : mrun fuel rr s i caps (fun j caps2 =>
            if j == i then none
            else mrun fuel (.rep 0 (decrOpt mx) g rr) s j caps2 k) = some r →
            ∃ j caps2, i ≤ j ∧ spanOk q s i j ∧ capsGood G s i j caps caps2 ∧
              k j caps2 = some r := by
          intro h
          rcases ih rr q G s i caps _ r hok h with ⟨j1, c1, hij1, sp1, cg1, hk1⟩
          by_cases hji : (j1 == i) = true
          · rw [if_pos hji] at hk1; exact absurd hk1 (by simp)
          · rw [if_neg hji] at hk1
            rcases ih (.rep 0 (decrOpt mx) g rr) q G s j1 c1 k r hok hk1 with
              ⟨j2, c2, hj12, sp2, cg2, hk2⟩
            exact ⟨j2, c2, by omega, spanOk_union sp1 sp2,
              capsGood_trans hij1 hj12 cg1 cg2, hk2⟩
        have hsplit : ∀ x y : Option (Nat × Caps),
            (x = some r → ∃ j caps2, i ≤ j ∧ spanOk q s i j ∧
              capsGood G s i j caps caps2 ∧ k j caps2 = some r) →
            (y = some r → ∃ j caps2, i ≤ j ∧ spanOk q s i j ∧
              capsGood G s i j caps caps2 ∧ k j caps2 = some r) →
            oelse x y = some r →
            ∃ j caps2, i ≤ j ∧ spanOk q s i j ∧ capsGood G s i j caps caps2 ∧
              k j caps2 = some r := by
          intro x y hx hy hxy
          cases hxv : x with
          | some r0 => rw [hxv] at hxy; simp only [oelse] at hxy; exact hx (by rw [hxv, hxy])
          | none => rw [hxv] at hxy; simp only [oelse] at hxy; exact hy hxy
        cases mx with
        | none =>
          have hm2 : (if g = true then
              oelse (mrun fuel rr s i caps (fun j caps2 => if j == i then none
                else mrun fuel (.rep 0 (decrOpt none) g rr) s j caps2 k)) (k i caps)
            else
              oelse (k i caps) (mrun fuel rr s i caps (fun j caps2 =>
                if j == i then none
                else mrun fuel (.rep 0 (decrOpt none) g rr) s j caps2 k))) =
              some r := hm
          by_cases hg : g = true
          · rw [if_pos hg] at hm2
            subst hg
            exact hsplit _ _ hmore hbase hm2
          · rw [if_neg hg] at hm2
            rw [Bool.not_eq_true] at hg
            subst hg
            exact hsplit _ _ hbase hmore hm2
        | some mxv =>
          cases mxv with
          | zero => exact hbase hm
          | succ mxv =>
            have hm2 : (if g = true then
                oelse (mrun fuel rr s i caps (fun j caps2 => if j == i then none
                  else mrun fuel (.rep 0 (decrOpt (some (mxv + 1))) g rr) s j caps2 k))
                  (k i caps)
              else
                oelse (k i caps) (mrun fuel rr s i caps (fun j caps2 =>
                  if j == i then none
                  else mrun fuel (.rep 0 (decrOpt (some (mxv + 1))) g rr) s j caps2 k))) =
                some r := hm
            by_cases hg : g = true
            · rw [if_pos hg] at hm2
              subst hg
              exact hsplit _ _ hmore hbase hm2
            · rw [if_neg hg] at hm2
              rw [Bool.not_eq_true] at hg
              subst hg
              exact hsplit _ _ hbase hmore hm2

/-- Per-group character bound for the primary pattern: group 2 (the value)
    is built from `[<>]`, `\d`, `[.,]` — exactly the `isRefCh` class — and
    the other groups are unconstrained. -/
def GPrimary : Nat → Char → Bool := fun n c => if n = 2 then isRefCh c else true

theorem sign_refCh : ∀ c : Char, isSignCh c = true → isRefCh c = true := by
  intro c h
  simp only [isSignCh, Bool.or_eq_true] at h
  simp only [isRefCh, Bool.or_eq_true]
  tauto

theorem sep_refCh : ∀ c : Char, isSepDot c = true → isRefCh c = true := by
  intro c h
  simp only [isSepDot, Bool.or_eq_true] at h
  simp only [isRefCh, Bool.or_eq_true]
  tauto

theorem digit_refCh : ∀ c : Char, isDigitCh c = true → isRefCh c = true := by
  intro c h
  simp only [isRefCh, Bool.or_eq_true]
  tauto

/-- Regexes without capture groups inside. -/
def grpFree : RE → Bool
  | .eps => true
  | .cls _ => true
  | .seq a b => grpFree a && grpFree b
  | .alt a b => grpFree a && grpFree b
  | .grp _ _ => false
  | .rep _ _ _ r => grpFree r

theorem REok_of_grpFree : ∀ re : RE, grpFree re = true →
    ∀ (q : Char → Bool) (G : Nat → Char → Bool), (∀ c, q c = true) →
    REok q G re := by
  intro re
  induction re with
  | eps => intro _ q G _; trivial
  | cls p => intro _ q G hq; exact fun c _ => hq c
  | seq a b iha ihb =>
    intro hf q G hq
    have hf2 : grpFree a = true ∧ grpFree b = true := by simpa [grpFree] using hf
    exact ⟨iha hf2.1 q G hq, ihb hf2.2 q G hq⟩
  | alt a b iha ihb =>
    intro hf q G hq
    have hf2 : grpFree a = true ∧ grpFree b = true := by simpa [grpFree] using hf
    exact ⟨iha hf2.1 q G hq, ihb hf2.2 q G hq⟩
  | grp n r ihr => intro hf; exact absurd hf (by simp [grpFree])
  | rep mn mx g r ihr =>
    intro hf q G hq
    exact ihr (by simpa [grpFree] using hf) q G hq

theorem REok_primary : REok (fun _ => true) GPrimary primaryRE :=
  ⟨fun _ _ => rfl, fun _ _ => rfl,
   ⟨fun c hc => sign_refCh c hc, fun c hc => digit_refCh c hc,
    fun c hc => sep_refCh c hc, fun c hc => digit_refCh c hc, trivial⟩,
   fun _ _ => rfl, fun _ _ => rfl, fun _ _ => rfl,
   REok_of_grpFree refAltRE (by decide) _ GPrimary (fun _ => rfl), trivial⟩

theorem mem_drop_take {s : List Char} {a b : Nat} {c : Char}
    (hc : c ∈ (s.drop a).take (b - a)) :
    ∃ m, a ≤ m ∧ m < b ∧ s.get? m = some c := by
  rcases List.mem_iff_get?.mp hc with ⟨idx, hidx⟩
  rw [List.get?_eq_getElem?] at hidx
  have hlen := (List.getElem?_eq_some_iff.mp hidx).1
  have hlt : idx < b - a := by
    rw [List.length_take] at hlen
    omega
  rw [List.getElem?_take_of_lt hlt, List.getElem?_drop] at hidx
  exact ⟨a + idx, by omega, by omega, by rw [List.get?_eq_getElem?]; exact hidx⟩

/-- The value group (group 2) of any successful primary match consists only
    of `[<>]`, digits and `[.,]` characters — in particular no whitespace. -/
theorem pmatch_g2_chars : ∀ (ln : String) (g1 g2 : String) (g3 : Option String),
    pmatchGroups ln = some (g1, g2, g3) → ∀ c ∈ g2.data, isRefCh c = true := by
  intro ln g1 g2 g3 hp c hc
  rw [pmatchGroups] at hp
  cases hmatch : rmatchAt primaryRE ln.data 0 with
  | none => rw [hmatch] at hp; exact absurd hp (by simp)
  | some m =>
    rw [hmatch] at hp
    obtain ⟨e, caps⟩ := m
    rcases mrun_sound (8 * ln.data.length + 64) primaryRE (fun _ => true) GPrimary
        ln.data 0 [] (fun j caps => some (j, caps)) (e, caps) REok_primary hmatch with
      ⟨j, caps2, hij, hsp, hcg, hk⟩
    have hcaps : caps2 = caps := by
      have := Option.some.inj hk
      exact (Prod.mk.injEq _ _ _ _ ▸ this).2
    subst hcaps
    have hp2 : (match capStr ln.data caps2 1, capStr ln.data caps2 2 with
        | some s1, some s2 => some (s1, s2, capStr ln.data caps2 3)
        | _, _ => none) = some (g1, g2, g3) := hp
    cases hcap1 : capStr ln.data caps2 1 with
    | none => rw [hcap1] at hp2; exact absurd hp2 (by simp)
    | some s1 =>
      cases hcap2 : capStr ln.data caps2 2 with
      | none => rw [hcap1, hcap2] at hp2; exact absurd hp2 (by simp)
      | some s2 =>
        rw [hcap1, hcap2] at hp2
        have hs2 : s2 = g2 := by
          have := Option.some.inj hp2
          simp only [Prod.mk.injEq] at this
          exact this.2.1
        subst hs2
        rw [capStr] at hcap2
        cases hfind : caps2.find? (fun en => en.1 == 2) with
        | none => rw [hfind] at hcap2; exact absurd hcap2 (by simp)
        | some ent =>
          rw [hfind] at hcap2
          have hent_mem : ent ∈ caps2 := List.mem_of_find?_eq_some hfind
          have hent_key : ent.1 = 2 := by
            have := List.find?_some hfind
            simpa using this
          rcases hcg ent hent_mem with hin | hgood
          · exact absurd hin (by simp)
          · have hdata : s2.data = (ln.data.drop ent.2.1).take (ent.2.2 - ent.2.1) := by
              have := Option.some.inj hcap2
              rw [← this]
            rw [hdata] at hc
            rcases mem_drop_take hc with ⟨pos, hpos1, hpos2, hget⟩
            rcases hgood.2.2.2 pos hpos1 hpos2 with ⟨ch, hget2, hG⟩
            have hch : ch = c := by
              rw [hget] at hget2
              exact (Option.some.inj hget2).symm
            subst hch
            rw [hent_key] at hG
            simpa [GPrimary] using hG

theorem pyStripList_id (l : List Char) (h : ∀ c ∈ l, isPySp c = false) :
    pyStripList l = l := by
  have hd : ∀ m : List Char, (∀ c ∈ m, isPySp c = false) → m.dropWhile isPySp = m := by
    intro m hm
    cases m with
    | nil => rfl
    | cons a t =>
      rw [List.dropWhile_cons, if_neg (by simp [hm a (List.mem_cons_self a t)])]
  rw [pyStripList, hd l h,
    hd l.reverse (fun c hcm => h c (List.mem_reverse.mp hcm)), List.reverse_reverse]

theorem commaToDot_refCh (c : Char) (h : isRefCh c = true) :
    isRefCh (if c == ',' then '.' else c) = true := by
  by_cases hc : (c == ',') = true
  · rw [if_pos hc]; decide
  · rw [if_neg hc]; exact h

theorem dlookup_map_replace {α : Type} : ∀ (d : List (String × α)) (k : String) (v : α),
    d.any (fun p => p.1 == k) = true →
    dlookup (d.map (fun p => if p.1 == k then (p.1, v) else p)) k = some v := by
  intro d k v h
  induction d with
  | nil => simp at h
  | cons p t ih =>
    by_cases hk : (p.1 == k) = true
    · rw [List.map_cons, if_pos hk]
      simp [dlookup, List.find?, hk]
    · have hk2 : (p.1 == k) = false := by simpa using hk
      rw [List.map_cons, if_neg hk]
      have ht : t.any (fun p => p.1 == k) = true := by
        rcases (List.any_eq_true).mp h with ⟨x, hx, hxk⟩
        rcases List.mem_cons.mp hx with rfl | hxm
        · exact absurd hxk hk
        · exact (List.any_eq_true).mpr ⟨x, hxm, hxk⟩
      simp only [dlookup, List.find?, hk2]
      exact ih ht

theorem dlookup_dinsert {α : Type} (d : List (String × α)) (k : String) (v : α) :
    dlookup (dinsert d k v) k = some v := by
  rw [dinsert]
  by_cases hc : d.any (fun p => p.1 == k) = true
  · rw [if_pos hc]
    exact dlookup_map_replace d k v hc
  · rw [if_neg hc]
    have hnone : d.find? (fun p => p.1 == k) = none := by
      apply List.find?_eq_none.mpr
      intro x hx
      intro hxk
      exact hc ((List.any_eq_true).mpr ⟨x, hx, hxk⟩)
    rw [dlookup, List.find?_append, hnone]
    simp [List.find?]

/-- **C8.**  For every line the primary structural pattern matches, the
    produced analyte entry is keyed by the matched name with surrounding
    whitespace trimmed, and its value is the matched value with every comma
    decimal separator replaced by a period (the trailing `strip()` of the
    source is the identity there, since the value group contains no
    whitespace). -/
theorem c8_primary_entry : ∀ (d : List (String × VR)) (ln : String)
    (g1 g2 : String) (g3 : Option String),
    pmatchGroups ln = some (g1, g2, g3) →
    dlookup (primaryStep d ln) (pyStrip g1) =
      some ⟨commaToDot g2, normalizeRef (g3.getD "")⟩ := by
  intro d ln g1 g2 g3 hp
  have hval := pmatch_g2_chars ln g1 g2 g3 hp
  have hnosp : ∀ c ∈ (commaToDot g2).data, isPySp c = false := by
    intro c hcm
    rcases List.mem_map.mp hcm with ⟨c0, hc0, hc0e⟩
    have h0 : isRefCh c = true := by
      rw [← hc0e]
      exact commaToDot_refCh c0 (hval c0 hc0)
    exact refCh_not_sp c h0
  have hstrip : pyStrip (commaToDot g2) = commaToDot g2 := by
    rw [pyStrip]
    show String.mk (pyStripList (commaToDot g2).data) = commaToDot g2
    rw [pyStripList_id _ hnosp]
  have hps : primaryStep d ln =
      dinsert d (pyStrip g1)
        ⟨pyStrip (commaToDot g2), normalizeRef (g3.getD "")⟩ := by
    rw [primaryStep, hp]
  rw [hps, hstrip]
  exact dlookup_dinsert d (pyStrip g1) _

theorem c8_primary_entry_witness :
    dlookup (primaryStep [] "Глюкоза 5,4 ммоль/л 3.5–6.1") (pyStrip "Глюкоза") =
      some ⟨commaToDot "5,4", normalizeRef ((some "3.5–6.1").getD "")⟩ ∧
    pyStrip "Глюкоза" = "Глюкоза" ∧ commaToDot "5,4" = "5.4" ∧
    normalizeRef ((some "3.5–6.1").getD "") = "3.5–6.1" :=
  ⟨c8_primary_entry [] "Глюкоза 5,4 ммоль/л 3.5–6.1" "Глюкоза" "5,4"
      (some "3.5–6.1") (by decide),
   by decide, by decide, by decide⟩

theorem c9_partial_write_witness :
    (write_values (fun c => c == "C1") "C" ["Аб", "Вг"]
        [("Аб", "1"), ("Вг", "2")]).attempts.map (fun t => t.1) = ["Аб", "Вг"] ∧
    (("Аб", "C1", false) : String × String × Bool).2.2 =
      !((fun c => c == "C1") "C1") :=
  ⟨(c9_partial_write (fun c => c == "C1") "C" ["Аб", "Вг"] [("Аб", "1"), ("Вг", "2")]).1,
   (c9_partial_write (fun c => c == "C1") "C" ["Аб", "Вг"] [("Аб", "1"), ("Вг", "2")]).2
     ("Аб", "C1", false) (by decide)⟩

end LabBot





